import Mathlib

/-!
Verification of the notifr notification relay (package `internal/notifr`).

Go strings are modelled as `List Char`; `strings.Split` with a one-character
separator is modelled by `splitOn`; Go maps keyed by strings are modelled as
association lists (insertion order fixes the iteration order, which Go leaves
unspecified); the mutable receiver of `TargetsConfig.Decode` is modelled by
explicit state passing.
-/

namespace Notifr

/-- Go strings, modelled as lists of characters. -/
abbrev Str := List Char

/-- Conversion from Lean string literals, for concrete inputs. -/
def str (s : String) : Str := s.data

/-- Go `strings.Split(s, sep)` for a one-character separator `sep`:
splits `s` around each occurrence of `sep`; splitting the empty string
yields `[[]]`. -/
def splitOn (sep : Char) : Str → List Str
  | [] => [[]]
  | c :: cs =>
    if c = sep then [] :: splitOn sep cs
    else
      match splitOn sep cs with
      | [] => [[c]]
      | p :: ps => (c :: p) :: ps

/-- Go `strings.Join(parts, sep)` for a one-character separator. -/
def joinSep (sep : Char) : List Str → Str
  | [] => []
  | [p] => p
  | p :: q :: ps => p ++ sep :: joinSep sep (q :: ps)

/-- `delivery` (notifr.go): a configuration for a delivery service —
a delivery-type name plus the ordered recipient list. -/
structure Delivery where
  name : Str
  recipients : List Str
deriving DecidableEq, Repr

/-- `target` (notifr.go): a named group of delivery services. -/
structure Target where
  deliveries : List Delivery
deriving DecidableEq, Repr

/-- `TargetsConfig` (notifr.go): map from target name to `target`,
modelled as an association list with distinct keys (Go map iteration
order is unspecified; the list order fixes one). -/
structure TargetsConfig where
  targets : List (Str × Target)
deriving DecidableEq, Repr

/-- The `valErrKind` constants of notifr.go. -/
inductive ValErrKind
  | invTargetSyntax
  | emptyTargets
  | unsupportedDelivery
  | invalidEmail
deriving DecidableEq, Repr

/-- `valError` (notifr.go): an error kind plus the offending entry text. -/
structure ValError where
  kind : ValErrKind
  target : Str
deriving DecidableEq, Repr

/-- `DeliverySMTP` (notifr.go): the SMTP delivery type name. -/
def DeliverySMTP : Str := str "smtp"

/-- Looking up a target by name in the association list (Go map indexing
`cnf.targets[tgtName]`). -/
def lookupTarget : List (Str × Target) → Str → Option Target
  | [], _ => none
  | (k, tgt) :: ts, name => if k = name then some tgt else lookupTarget ts name

/-- The inner loop of `TargetsConfig.Decode` over `tgt.deliveries`: find the
first delivery with the given name and append the recipient to it; if none
exists, append a fresh delivery at the end. -/
def addToDelivery : List Delivery → Str → Str → List Delivery
  | [], dlvName, rcpt => [⟨dlvName, [rcpt]⟩]
  | d :: ds, dlvName, rcpt =>
    if d.name = dlvName then ⟨d.name, d.recipients ++ [rcpt]⟩ :: ds
    else d :: addToDelivery ds dlvName rcpt

/-- One iteration of the `TargetsConfig.Decode` loop body for an
already-parsed entry `tgtName:dlvName:rcpt`: find-or-create the target,
then find-or-create the delivery and append the recipient. -/
def addTriple : List (Str × Target) → Str → Str → Str → List (Str × Target)
  | [], tgtName, dlvName, rcpt => [(tgtName, ⟨[⟨dlvName, [rcpt]⟩]⟩)]
  | (k, tgt) :: ts, tgtName, dlvName, rcpt =>
    if k = tgtName then (k, ⟨addToDelivery tgt.deliveries dlvName rcpt⟩) :: ts
    else (k, tgt) :: addTriple ts tgtName dlvName rcpt

/-- Parsing of a single entry in `TargetsConfig.Decode`: split on `:`,
require exactly three non-empty fields. -/
def parseEntry (v : Str) : Option (Str × Str × Str) :=
  match splitOn ':' v with
  | [tgtName, dlvName, rcpt] =>
    if tgtName = [] ∨ dlvName = [] ∨ rcpt = [] then none
    else some (tgtName, dlvName, rcpt)
  | _ => none

/-- The entry loop of `TargetsConfig.Decode`: process entries left to right,
stopping at the first malformed one with an `invalid target's syntax` error
that carries the raw entry; the state accumulated so far is kept (the Go
method mutates its receiver in place). -/
def decodeEntries : List (Str × Target) → List Str → List (Str × Target) × Option ValError
  | ts, [] => (ts, none)
  | ts, v :: vs =>
    match parseEntry v with
    | none => (ts, some ⟨.invTargetSyntax, v⟩)
    | some (tgtName, dlvName, rcpt) => decodeEntries (addTriple ts tgtName dlvName rcpt) vs

/-- `TargetsConfig.Decode` (notifr.go): the empty string is accepted without
touching the receiver; otherwise the input is split on `,` and the entries
are processed in order. The returned pair is (receiver state after the call,
returned error). -/
def Decode (cnf : TargetsConfig) (value : Str) : TargetsConfig × Option ValError :=
  if value = [] then (cnf, none)
  else
    let res := decodeEntries cnf.targets (splitOn ',' value)
    (⟨res.1⟩, res.2)

/-- The `(target, delivery, recipient)` triples of one target, in stored
order. -/
def targetTriples (tgtName : Str) (tgt : Target) : List (Str × Str × Str) :=
  tgt.deliveries.flatMap fun d => d.recipients.map fun r => (tgtName, d.name, r)

/-- All `(target, delivery, recipient)` triples of a configuration, in the
nested iteration order of `MarshalJSON` / `validateTargetConfig`. -/
def triples (ts : List (Str × Target)) : List (Str × Str × Str) :=
  ts.flatMap fun p => targetTriples p.1 p.2

/-- `fmt.Sprintf("%s:%s:%s", tgtName, dlvName, rcpt)`. -/
def fmtTriple (x : Str × Str × Str) : Str := x.1 ++ ':' :: x.2.1 ++ ':' :: x.2.2

/-- `TargetsConfig.MarshalJSON` (notifr.go) without the surrounding `%q`
quotes: one `target:delivery:recipient` entry per triple, joined by `,`. -/
def serialize (cnf : TargetsConfig) : Str :=
  joinSep ',' ((triples cnf.targets).map fmtTriple)

/-- Lower-case letter test, `[a-z]` in `reEmail`. -/
def isLowerAl (c : Char) : Bool := 'a' ≤ c && c ≤ 'z'

/-- Digit test, `[0-9]` in `reEmail`. -/
def isDig (c : Char) : Bool := '0' ≤ c && c ≤ '9'

/-- The punctuation characters admitted by the local-part atom class of
`reEmail` besides letters and digits; the four written via code points are
apostrophe (39), backtick (96) and the braces (123, 125). -/
def emailSpecials : List Char :=
  ['!', '#', '$', '%', '&', '*', '+', '/', '=', '?', '^', '_', '|', '~', '-',
    Char.ofNat 39, Char.ofNat 96, Char.ofNat 123, Char.ofNat 125]

/-- Membership in the local-part atom character class of `reEmail`. -/
def emailAtomChar (c : Char) : Bool := isLowerAl c || isDig c || emailSpecials.contains c

/-- One dot-separated atom of the local part: non-empty, all characters in
the atom class. -/
def emailAtomOk (a : Str) : Bool := !a.isEmpty && a.all emailAtomChar

/-- The local part of `reEmail`: one or more non-empty atoms separated by
dots. -/
def emailLocalOk (l : Str) : Bool := (splitOn '.' l).all emailAtomOk

/-- A domain label of `reEmail`: `[a-z0-9](?:[a-z0-9-]*[a-z0-9])?`, i.e.
non-empty, every character a letter, digit or hyphen, and the first and last
characters not hyphens. -/
def emailLabelOk (l : Str) : Bool :=
  match l with
  | [] => false
  | c :: cs =>
    (isLowerAl c || isDig c) && (c :: cs).all (fun d => isLowerAl d || isDig d || d = '-')
      && (match (c :: cs).getLast? with
          | some d => isLowerAl d || isDig d
          | none => false)

/-- The domain part of `reEmail`: two or more labels separated by dots. -/
def emailDomainOk (d : Str) : Bool :=
  match splitOn '.' d with
  | ls => decide (2 ≤ ls.length) && ls.all emailLabelOk

/-- Full (anchored) match of `reEmail` against a candidate string: since
`@` belongs to neither character class, a match contains exactly one `@`,
with the local grammar on the left and the domain grammar on the right. -/
def emailExact (s : Str) : Bool :=
  match splitOn '@' s with
  | [l, d] => emailLocalOk l && emailDomainOk d
  | _ => false

/-- All suffixes of a string, longest first. -/
def strTails : Str → List Str
  | [] => [[]]
  | c :: cs => (c :: cs) :: strTails cs

/-- All prefixes of a string, shortest first. -/
def strInits : Str → List Str
  | [] => [[]]
  | c :: cs => [] :: (strInits cs).map (c :: ·)

/-- `reEmail.MatchString` (notifr.go): the pattern is unanchored, so the
call succeeds exactly when some substring matches the pattern in full. -/
def emailMatch (s : Str) : Bool :=
  (strTails s).any fun t => (strInits t).any emailExact

/-- `validateTargetConfig`'s per-recipient checks, in source order: first
the supported-delivery check, then the SMTP e-mail check, each error
carrying the `target:delivery:recipient` diagnostic. -/
def validateTriple (supported : List Str) (x : Str × Str × Str) : Option ValError :=
  if ¬ x.2.1 ∈ supported then some ⟨.unsupportedDelivery, fmtTriple x⟩
  else if x.2.1 = DeliverySMTP ∧ ¬ emailMatch x.2.2 then some ⟨.invalidEmail, fmtTriple x⟩
  else none

/-- `validateTargetConfig` (notifr.go): an empty configuration is rejected
with `empty targets`; otherwise the `(target, delivery, recipient)` triples
are scanned in iteration order and the first failing check wins. -/
def validateTargetConfig (supported : List Str) (cnf : TargetsConfig) : Option ValError :=
  if cnf.targets = [] then some ⟨.emptyTargets, []⟩
  else (triples cnf.targets).findSome? (validateTriple supported)

/-- `Message` (notifr.go): the JSON body of a request. -/
structure Message where
  subject : Str
  text : Str
deriving DecidableEq, Repr

/-- The request body as seen by `newMessageHandler`: `http.NoBody`, a body
whose JSON decoding fails, or a successfully decoded `Message` (a JSON body
without a `text` field decodes to a message with empty text). -/
inductive ReqBody
  | noBody
  | invalid
  | json (m : Message)
deriving DecidableEq, Repr

/-- An HTTP request as consumed by `newMessageHandler`: the value of the
`target` query parameter (`r.URL.Query().Get` returns the empty string when
the parameter is absent) and the body. -/
structure Request where
  target : Str
  body : ReqBody
deriving DecidableEq, Repr

/-- One `sender.Send(dlv.recipients, msg)` invocation made by the handler's
fan-out loop. -/
structure SendCall where
  delivery : Str
  recipients : List Str
  msg : Message
deriving DecidableEq, Repr

/-- The observable outcome of one `newMessageHandler` invocation: HTTP
status and body, the `Send` calls issued (one goroutine per delivery; all
have returned when the handler returns, `wg.Wait`), and the failures passed
to `log.Infow` (`Send` errors are logged, never propagated). -/
structure HResponse where
  status : Nat
  body : Str
  sends : List SendCall
  failedLogs : List SendCall
deriving DecidableEq, Repr

/-- `fmt.Sprintln`: the message followed by a newline. -/
def sprintln (s : Str) : Str := s ++ ['\n']

/-- `http.Error(w, msg, code)`: responds with the given status and with
`msg` plus a trailing newline as the body. -/
def httpError (msg : Str) (code : Nat) : HResponse :=
  { status := code, body := msg ++ ['\n'], sends := [], failedLogs := [] }

/-- `fmt.Sprintf("Unknown target %q", name)` for names without characters
that `%q` escapes: the name wrapped in double quotes. -/
def quoted (s : Str) : Str := '"' :: s ++ ['"']

/-- `newMessageHandler` (notifr.go), with the channels' outcomes supplied by
`sendErr` (the error, if any, that `senders[dlv.name].Send` returns for the
given recipients and message). Checks in source order: missing `target`
parameter, unknown target, `http.NoBody`, JSON decoding failure, empty
`text`; otherwise one `Send` per delivery of the target, failures logged,
and a `200` response with an empty body. -/
def messageHandler (targetsConfig : TargetsConfig)
    (sendErr : Str → List Str → Message → Option Str) (r : Request) : HResponse :=
  if r.target = [] then httpError (sprintln (str "Parameter 'target' is missed")) 400
  else
    match lookupTarget targetsConfig.targets r.target with
    | none => httpError (str "Unknown target " ++ quoted r.target) 400
    | some tgt =>
      match r.body with
      | .noBody => httpError (sprintln (str "No body")) 400
      | .invalid => httpError (sprintln (str "Invalid body")) 400
      | .json msg =>
        if msg.text = [] then httpError (sprintln (str "Missing required fields: text")) 400
        else
          let calls := tgt.deliveries.map fun dlv => SendCall.mk dlv.name dlv.recipients msg
          { status := 200, body := [],
            sends := calls,
            failedLogs :=
              calls.filter fun c => (sendErr c.delivery c.recipients c.msg).isSome }

/-- The retry loop of `SMTPSender.Send` (notifr.go). `attempt k` is the
outcome of the `s.sendfn(mail)` call number `k` (counting from 0): `none`
for success, `some e` for an error. `isTemp e` models
`v, ok := err.(net.Error); ok && v.Temporary()`. The `Nat` argument counts
attempts made so far and the `Option ε` argument is the value of the Go
`err` variable entering the loop iteration; the result is (returned error,
total number of attempts made). -/
def sendLoop {ε δ : Type} (isTemp : ε → Bool) (attempt : Nat → Option ε) :
    List δ → Nat → Option ε → Option ε × Nat
  | [], k, err => (err, k)
  | _ :: rest, k, _ =>
    match attempt k with
    | none => (none, k + 1)
    | some e => if isTemp e then sendLoop isTemp attempt rest (k + 1) (some e) else (some e, k + 1)

/-- `SMTPSender.Send` (notifr.go), abstracted over the transport: iterate
the loop over `s.Retries` starting with zero attempts and a nil `err`
(rendering, subject derivation and the `time.Sleep` calls do not affect the
returned error or the attempt count). -/
def smtpSend {ε δ : Type} (isTemp : ε → Bool) (attempt : Nat → Option ε)
    (retries : List δ) : Option ε × Nat :=
  sendLoop isTemp attempt retries 0 none

/-- The email header line-length bound `subjectMaxLen` (smtp.go). -/
def subjectMaxLen : Nat := 78

/-- The first-non-empty-line scan in `SMTPSender.Send`: Go ranges over
`strings.Split(plainText, "\n")` and keeps the first non-empty line,
leaving the subject empty when every line is empty. -/
def firstNonEmptyLine (s : Str) : Str :=
  ((splitOn '\n' s).find? (fun line => ¬ line = [])).getD []

/-- The subject-resolution logic of `SMTPSender.Send` (smtp source file),
abstracted over the Markdown renderer (`blackfriday.Run`) and the tag
stripper (`strip.StripTags`): a non-empty `msg.Subject` is used verbatim;
otherwise the rendered text is stripped of tags, the first non-empty line
is taken and the result is truncated to `subjectMaxLen` characters. -/
def smtpSubject (render stripT : Str → Str) (msg : Message) : Str :=
  if msg.subject = [] then
    let plainText := stripT (render msg.text)
    let subject := firstNonEmptyLine plainText
    if subjectMaxLen < subject.length then subject.take subjectMaxLen else subject
  else msg.subject

/-- Helper for `stripTags`: scan with a flag recording whether the position
is inside a `<...>` tag; characters inside a tag are dropped. -/
def stripTagsAux : Bool → Str → Str
  | _, [] => []
  | true, c :: rest => if c = '>' then stripTagsAux false rest else stripTagsAux true rest
  | false, c :: rest => if c = '<' then stripTagsAux true rest else c :: stripTagsAux false rest

/-- Modelled from the spec: `strip.StripTags` is a vendored third-party
library whose source is not under src/; the spec says the rendered HTML is
stripped of "all markup tags to obtain plain text". Every `<...>` tag is
removed and all other text is kept. -/
def stripTags (s : Str) : Str := stripTagsAux false s

/-- Modelled from the spec: the Markdown renderer `blackfriday.Run` is a
vendored third-party library whose source is not under src/; the spec says
the message text "is converted to an HTML fragment using a standard Markdown
dialect". The model covers the constructs the spec's subject example uses: a
line starting with `# ` renders as an `<h1>` heading and any other non-empty
line as a paragraph. -/
def mdRender (s : Str) : Str :=
  joinSep '\n' ((splitOn '\n' s).map fun line =>
    if line.take 2 = str "# " then str "<h1>" ++ line.drop 2 ++ str "</h1>"
    else if line = [] then []
    else str "<p>" ++ line ++ str "</p>")

/-- A raw entry that splits into exactly three non-empty colon-separated
fields — the success condition of one `Decode` loop iteration. -/
def EntryOk (v : Str) : Prop :=
  ∃ t d r, splitOn ':' v = [t, d, r] ∧ ¬ t = [] ∧ ¬ d = [] ∧ ¬ r = []

/-- A field value free of the separator characters, as assumed of a
validly-constructed configuration (the input grammar has no escaping of `:`
or `,` inside fields). -/
def WFStr (s : Str) : Prop := ¬ s = [] ∧ ':' ∉ s ∧ ',' ∉ s

/-- Observation helper: the first delivery with the given name, as found by
the inner loop of `Decode`. -/
def findDelivery : List Delivery → Str → Option Delivery
  | [], _ => none
  | dv :: ds, d => if dv.name = d then some dv else findDelivery ds d

/-- Observation helper: the recipient list of the first delivery with the
given name, empty when absent. -/
def recipsIn (ds : List Delivery) (d : Str) : List Str :=
  match findDelivery ds d with
  | none => []
  | some dv => dv.recipients

/-- Observation helper: the recipient list stored for a `target:delivery`
pair, empty when the pair is absent. -/
def recipientsOf (ts : List (Str × Target)) (t d : Str) : List Str :=
  match lookupTarget ts t with
  | none => []
  | some tgt => recipsIn tgt.deliveries d

/-- The recipients that the raw entries assign to a `target:delivery` pair,
in input order. -/
def collectRecipients (es : List Str) (t d : Str) : List Str :=
  es.filterMap fun v =>
    match parseEntry v with
    | some (t', d', r) => if t = t' ∧ d = d' then some r else none
    | none => none

/-- A response body with its trailing newlines removed (the handler's error
messages gain one newline from `fmt.Sprintln` and one from `http.Error`). -/
def trimNl (s : Str) : Str := (s.reverse.dropWhile (fun c => c = '\n')).reverse

/-- Substring test, for "the response body mentions the target name". -/
def isSubstr (pat s : Str) : Bool := (strTails s).any fun t => pat.isPrefixOf t

end Notifr

namespace Notifr

example : splitOn ',' (str "a,b") = [str "a", str "b"] := by decide

example :
    Decode ⟨[]⟩ (str "test:smtp:email@example.com") =
      (⟨[(str "test", ⟨[⟨str "smtp", [str "email@example.com"]⟩]⟩)]⟩, none) := by
  decide

example :
    Decode ⟨[]⟩ (str "t:smtp:a,t:smtp:b,t:sms:c") =
      (⟨[(str "t", ⟨[⟨str "smtp", [str "a", str "b"]⟩, ⟨str "sms", [str "c"]⟩]⟩)]⟩,
        none) := by
  decide

example :
    (Decode ⟨[]⟩ (str "test:smtp")).2 = some ⟨.invTargetSyntax, str "test:smtp"⟩ := by
  decide

example : (Decode ⟨[]⟩ (str "::")).2 = some ⟨.invTargetSyntax, str "::"⟩ := by
  decide

example : serialize ⟨[(str "t", ⟨[⟨str "smtp", [str "a", str "b"]⟩]⟩)]⟩ =
    str "t:smtp:a,t:smtp:b" := by decide

example : emailMatch (str "a@b.c") = true := by decide

example : emailMatch (str "noemail") = false := by decide

example : emailMatch (str "email@example.com") = true := by decide

example : validateTargetConfig [DeliverySMTP] ⟨[]⟩ = some ⟨.emptyTargets, []⟩ := by
  decide

example :
    validateTargetConfig [DeliverySMTP]
        ⟨[(str "test", ⟨[⟨str "nosmtp", [str "a@b.c"]⟩]⟩)]⟩ =
      some ⟨.unsupportedDelivery, str "test:nosmtp:a@b.c"⟩ := by
  decide

example :
    validateTargetConfig [DeliverySMTP]
        ⟨[(str "test", ⟨[⟨str "smtp", [str "noemail"]⟩]⟩)]⟩ =
      some ⟨.invalidEmail, str "test:smtp:noemail"⟩ := by
  decide

example :
    validateTargetConfig [DeliverySMTP]
        ⟨[(str "test", ⟨[⟨str "smtp", [str "a@b.c"]⟩]⟩)]⟩ = none := by
  decide

-- TestSMTPSender "all errors": temp, temp, non-temp with 3 retry waits.
example :
    smtpSend (fun n => decide (n < 2)) (fun k => some k) [0, 0, 0] = (some 2, 3) := by
  decide

-- TestSMTPSender "partially failed": temp, temp, success with 3 retry waits.
example :
    smtpSend (fun n => decide (n < 2))
        (fun k => if k < 2 then some k else none) [0, 0, 0] = (none, 3) := by
  decide

-- TestSMTPSender "ok": immediate success.
example :
    smtpSend (fun _ : Nat => true) (fun _ => none) [0, 0, 0] = (none, 1) := by
  decide

-- Non-transient failure on the first attempt: one attempt, error returned.
example :
    smtpSend (fun _ : Nat => false) (fun k => some k) [0, 0, 0] = (some 0, 1) := by
  decide

-- Empty retry schedule: zero attempts, success reported.
example :
    smtpSend (fun _ : Nat => false) (fun k => some k) ([] : List Nat) = (none, 0) := by
  decide

example :
    smtpSubject mdRender stripTags ⟨[], str "# Title\nbody"⟩ = str "Title" := by
  decide

example :
    smtpSubject mdRender stripTags ⟨str "Explicit", str "# Title\nbody"⟩ =
      str "Explicit" := by
  decide

example :
    messageHandler ⟨[(str "test", ⟨[⟨str "smtp", [str "email@example.com"]⟩]⟩)]⟩
        (fun _ _ _ => none)
        ⟨str "test", .json ⟨str "Test Subject", str "Test Message"⟩⟩ =
      { status := 200, body := [],
        sends := [⟨str "smtp", [str "email@example.com"],
          ⟨str "Test Subject", str "Test Message"⟩⟩],
        failedLogs := [] } := by
  decide

example :
    (messageHandler ⟨[(str "test", ⟨[⟨str "smtp", [str "email@example.com"]⟩]⟩)]⟩
        (fun _ _ _ => none) ⟨[], .json ⟨[], str "hi"⟩⟩).body =
      str "Parameter 'target' is missed\n\n" := by
  decide

example : splitOn ',' [] = [[]] := by decide

example : splitOn ',' (str ",") = [[], []] := by decide

example : joinSep ',' [str "a", str "b"] = str "a,b" := by decide

/-! ### The SMTP retry loop -/

theorem sendLoop_nil {ε δ : Type} (isTemp : ε → Bool) (attempt : Nat → Option ε)
    (k : Nat) (err0 : Option ε) :
    sendLoop isTemp attempt ([] : List δ) k err0 = (err0, k) := rfl

theorem sendLoop_succ {ε δ : Type} (isTemp : ε → Bool) (attempt : Nat → Option ε)
    (d : δ) (rest : List δ) (k : Nat) (err0 : Option ε) (h : attempt k = none) :
    sendLoop isTemp attempt (d :: rest) k err0 = (none, k + 1) := by
  simp [sendLoop, h]

theorem sendLoop_temp {ε δ : Type} (isTemp : ε → Bool) (attempt : Nat → Option ε)
    (d : δ) (rest : List δ) (k : Nat) (err0 : Option ε) (e : ε)
    (h : attempt k = some e) (ht : isTemp e = true) :
    sendLoop isTemp attempt (d :: rest) k err0 =
      sendLoop isTemp attempt rest (k + 1) (some e) := by
  simp [sendLoop, h, ht]

theorem sendLoop_perm {ε δ : Type} (isTemp : ε → Bool) (attempt : Nat → Option ε)
    (d : δ) (rest : List δ) (k : Nat) (err0 : Option ε) (e : ε)
    (h : attempt k = some e) (ht : isTemp e = false) :
    sendLoop isTemp attempt (d :: rest) k err0 = (some e, k + 1) := by
  simp [sendLoop, h, ht]

theorem sendLoop_success_at {ε δ : Type} (isTemp : ε → Bool) (attempt : Nat → Option ε)
    (retries : List δ) :
    ∀ (j k : Nat) (err0 : Option ε),
      j < retries.length →
      (∀ i, i < j → ∃ e, attempt (k + i) = some e ∧ isTemp e = true) →
      attempt (k + j) = none →
      sendLoop isTemp attempt retries k err0 = (none, k + j + 1) := by
  induction retries with
  | nil => intro j k err0 hj _ _; simp at hj
  | cons d rest ih =>
    intro j k err0 hj hpre hsucc
    cases j with
    | zero =>
      rw [sendLoop_succ isTemp attempt d rest k err0 (by simpa using hsucc)]
    | succ j =>
      obtain ⟨e, he, ht⟩ := hpre 0 (Nat.succ_pos j)
      rw [sendLoop_temp isTemp attempt d rest k err0 e (by simpa using he) ht]
      have h2 : ∀ i, i < j → ∃ e, attempt (k + 1 + i) = some e ∧ isTemp e = true := by
        intro i hi
        have := hpre (i + 1) (Nat.succ_lt_succ hi)
        have harith : k + (i + 1) = k + 1 + i := by omega
        rwa [harith] at this
      have h3 : attempt (k + 1 + j) = none := by
        have harith : k + (j + 1) = k + 1 + j := by omega
        rwa [harith] at hsucc
      rw [ih j (k + 1) (some e) (by simpa using Nat.lt_of_succ_lt_succ hj) h2 h3]
      have harith : k + 1 + j + 1 = k + (j + 1) + 1 := by omega
      rw [harith]

theorem sendLoop_perm_at {ε δ : Type} (isTemp : ε → Bool) (attempt : Nat → Option ε)
    (retries : List δ) :
    ∀ (j k : Nat) (err0 : Option ε) (e : ε),
      j < retries.length →
      (∀ i, i < j → ∃ e, attempt (k + i) = some e ∧ isTemp e = true) →
      attempt (k + j) = some e → isTemp e = false →
      sendLoop isTemp attempt retries k err0 = (some e, k + j + 1) := by
  induction retries with
  | nil => intro j k err0 e hj _ _ _; simp at hj
  | cons d rest ih =>
    intro j k err0 e hj hpre hfail hperm
    cases j with
    | zero =>
      rw [sendLoop_perm isTemp attempt d rest k err0 e (by simpa using hfail) hperm]
    | succ j =>
      obtain ⟨e', he', ht'⟩ := hpre 0 (Nat.succ_pos j)
      rw [sendLoop_temp isTemp attempt d rest k err0 e' (by simpa using he') ht']
      have h2 : ∀ i, i < j → ∃ e, attempt (k + 1 + i) = some e ∧ isTemp e = true := by
        intro i hi
        have := hpre (i + 1) (Nat.succ_lt_succ hi)
        have harith : k + (i + 1) = k + 1 + i := by omega
        rwa [harith] at this
      have h3 : attempt (k + 1 + j) = some e := by
        have harith : k + (j + 1) = k + 1 + j := by omega
        rwa [harith] at hfail
      rw [ih j (k + 1) (some e') e (by simpa using Nat.lt_of_succ_lt_succ hj) h2 h3 hperm]
      have harith : k + 1 + j + 1 = k + (j + 1) + 1 := by omega
      rw [harith]

theorem sendLoop_allTemp {ε δ : Type} (isTemp : ε → Bool) (attempt : Nat → Option ε)
    (retries : List δ) :
    ∀ (k : Nat) (err0 : Option ε),
      ¬ retries = [] →
      (∀ i, i < retries.length → ∃ e, attempt (k + i) = some e ∧ isTemp e = true) →
      sendLoop isTemp attempt retries k err0 =
        (attempt (k + retries.length - 1), k + retries.length) := by
  induction retries with
  | nil => intro k err0 h _; exact absurd rfl h
  | cons d rest ih =>
    intro k err0 _ hall
    obtain ⟨e, he, ht⟩ := hall 0 (Nat.succ_pos rest.length)
    rw [sendLoop_temp isTemp attempt d rest k err0 e (by simpa using he) ht]
    cases rest with
    | nil =>
      rw [sendLoop_nil]
      simp only [List.length_cons, List.length_nil]
      have : k + (0 + 1) - 1 = k := by omega
      rw [this]
      exact congrArg (fun o => (o, k + 1)) (by simpa using he.symm)
    | cons d' rest' =>
      have h2 : ∀ i, i < (d' :: rest').length →
          ∃ e, attempt (k + 1 + i) = some e ∧ isTemp e = true := by
        intro i hi
        have := hall (i + 1) (by simpa using Nat.succ_lt_succ hi)
        have harith : k + (i + 1) = k + 1 + i := by omega
        rwa [harith] at this
      rw [ih (k + 1) (some e) (by simp) h2]
      have h4 : k + 1 + (d' :: rest').length - 1 = k + (d :: d' :: rest').length - 1 := by
        simp only [List.length_cons]; omega
      have h5 : k + 1 + (d' :: rest').length = k + (d :: d' :: rest').length := by
        simp only [List.length_cons]; omega
      rw [h4, h5]

/-- C2: with a non-empty retry schedule, `SMTPSender.Send` returns success
immediately when an attempt succeeds, returns a non-transient error
immediately after the attempt that produced it, and after transient
failures on every attempt makes exactly `length` attempts and returns the
last error. -/
theorem smtpSend_retry_spec {ε δ : Type} (isTemp : ε → Bool) (attempt : Nat → Option ε)
    (retries : List δ) (hne : ¬ retries = []) :
    (∀ j, j < retries.length →
      (∀ i, i < j → ∃ e, attempt i = some e ∧ isTemp e = true) →
      ((attempt j = none → smtpSend isTemp attempt retries = (none, j + 1)) ∧
        (∀ e, attempt j = some e → isTemp e = false →
          smtpSend isTemp attempt retries = (some e, j + 1)))) ∧
    ((∀ i, i < retries.length → ∃ e, attempt i = some e ∧ isTemp e = true) →
      smtpSend isTemp attempt retries = (attempt (retries.length - 1), retries.length)) := by
  constructor
  · intro j hj hpre
    constructor
    · intro hsucc
      have := sendLoop_success_at isTemp attempt retries j 0 none hj
        (by simpa using hpre) (by simpa using hsucc)
      simpa [smtpSend] using this
    · intro e hfail hperm
      have := sendLoop_perm_at isTemp attempt retries j 0 none e hj
        (by simpa using hpre) (by simpa using hfail) hperm
      simpa [smtpSend] using this
  · intro hall
    have := sendLoop_allTemp isTemp attempt retries 0 none hne (by simpa using hall)
    simpa [smtpSend] using this

theorem smtpSend_retry_spec_witness :
    smtpSend (fun n => decide (n < 2)) (fun k => if k < 2 then some k else none)
        ([10, 60, 600] : List Nat) = (none, 3) ∧
    smtpSend (fun _ : Nat => false) (fun _ => some 7) ([10, 60, 600] : List Nat) =
      (some 7, 1) := by
  constructor
  · exact ((smtpSend_retry_spec (fun n => decide (n < 2))
      (fun k => if k < 2 then some k else none) [10, 60, 600] (by decide)).1 2
        (by decide) (fun i hi => ⟨i, by simp [hi]⟩)).1 (by decide)
  · exact ((smtpSend_retry_spec (fun _ : Nat => false) (fun _ => some 7)
      [10, 60, 600] (by decide)).1 0 (by decide) (by intro i hi; omega)).2 7 rfl rfl

/-- C3: with an empty retry schedule the loop body never runs, so the code
makes zero send attempts and returns success — contradicting the documented
"single attempt with no retry". -/
theorem smtpSend_empty_retries {ε δ : Type} (isTemp : ε → Bool)
    (attempt : Nat → Option ε) :
    smtpSend isTemp attempt ([] : List δ) = (none, 0) := rfl

/-! ### Subject derivation -/

/-- C7: a non-empty subject is used verbatim; an empty subject is derived
from the text by rendering Markdown, stripping tags, taking the first
non-empty line and truncating it to at most 78 characters, and on the text
`"# Title\nbody"` the derived subject is `"Title"`. -/
theorem smtpSubject_spec (render stripT : Str → Str) (msg : Message) :
    (¬ msg.subject = [] → smtpSubject render stripT msg = msg.subject) ∧
    (msg.subject = [] →
      smtpSubject render stripT msg =
        (firstNonEmptyLine (stripT (render msg.text))).take subjectMaxLen ∧
      (smtpSubject render stripT msg).length ≤ subjectMaxLen) ∧
    (msg.subject = [] → msg.text = str "# Title\nbody" →
      smtpSubject mdRender stripTags msg = str "Title") := by
  refine ⟨?_, ?_, ?_⟩
  · intro h
    simp [smtpSubject, h]
  · intro h
    by_cases hl : subjectMaxLen < (firstNonEmptyLine (stripT (render msg.text))).length
    · constructor
      · simp [smtpSubject, h, hl]
      · simp [smtpSubject, h, hl, List.length_take]
    · push_neg at hl
      constructor
      · simp [smtpSubject, h, Nat.not_lt_of_le hl, List.take_of_length_le hl]
      · simpa [smtpSubject, h, Nat.not_lt_of_le hl] using hl
  · intro h1 h2
    obtain ⟨s, t⟩ := msg
    simp only at h1 h2
    subst h1; subst h2
    decide

theorem smtpSubject_spec_witness :
    smtpSubject mdRender stripTags ⟨[], str "# Title\nbody"⟩ = str "Title" ∧
    smtpSubject mdRender stripTags ⟨str "Explicit", str "# Title\nbody"⟩ =
      str "Explicit" :=
  ⟨(smtpSubject_spec mdRender stripTags ⟨[], str "# Title\nbody"⟩).2.2 rfl rfl,
    (smtpSubject_spec mdRender stripTags ⟨str "Explicit", str "# Title\nbody"⟩).1
      (by decide)⟩

/-! ### The message handler -/

theorem prefixOf_append (pat suf : Str) : pat.isPrefixOf (pat ++ suf) = true := by
  induction pat with
  | nil => simp [List.isPrefixOf]
  | cons c cs ih => simp [List.isPrefixOf, ih]

theorem isSubstr_of_prefixOf (pat s : Str) (h : pat.isPrefixOf s = true) :
    isSubstr pat s = true := by
  cases s with
  | nil => simpa [isSubstr, strTails] using h
  | cons c cs => simp [isSubstr, strTails, h]

theorem isSubstr_of_append (pat pre suf : Str) : isSubstr pat (pre ++ pat ++ suf) = true := by
  induction pre with
  | nil =>
    exact isSubstr_of_prefixOf pat (pat ++ suf) (prefixOf_append pat suf)
  | cons c cs ih =>
    have harr : (c :: cs) ++ pat ++ suf = c :: (cs ++ pat ++ suf) := by simp
    rw [harr]
    have ih' : ((strTails (cs ++ pat ++ suf)).any fun t => pat.isPrefixOf t) = true := by
      simpa [isSubstr] using ih
    simp only [isSubstr, strTails, List.any_cons]
    rw [ih']
    simp

/-- C1: when the target is present in the configuration and the body decodes
to a message with non-empty text, the handler issues exactly one `Send` per
delivery of the target, each with that delivery's recipients and the decoded
message, and responds `200` with an empty body whatever errors the senders
return. -/
theorem messageHandler_dispatch (cfg : TargetsConfig)
    (sendErr : Str → List Str → Message → Option Str) (r : Request)
    (tgt : Target) (m : Message)
    (hname : ¬ r.target = [])
    (hlook : lookupTarget cfg.targets r.target = some tgt)
    (hbody : r.body = .json m)
    (htext : ¬ m.text = []) :
    (messageHandler cfg sendErr r).status = 200 ∧
    (messageHandler cfg sendErr r).body = [] ∧
    (messageHandler cfg sendErr r).sends =
      tgt.deliveries.map fun dlv => SendCall.mk dlv.name dlv.recipients m := by
  simp [messageHandler, hname, hlook, hbody, htext]

theorem messageHandler_dispatch_witness :
    (messageHandler ⟨[(str "test", ⟨[⟨str "smtp", [str "email@example.com"]⟩]⟩)]⟩
        (fun _ _ _ => some (str "Unknown error"))
        ⟨str "test", .json ⟨str "Test Subject", str "Test Message"⟩⟩).status = 200 ∧
    (messageHandler ⟨[(str "test", ⟨[⟨str "smtp", [str "email@example.com"]⟩]⟩)]⟩
        (fun _ _ _ => some (str "Unknown error"))
        ⟨str "test", .json ⟨str "Test Subject", str "Test Message"⟩⟩).body = [] ∧
    (messageHandler ⟨[(str "test", ⟨[⟨str "smtp", [str "email@example.com"]⟩]⟩)]⟩
        (fun _ _ _ => some (str "Unknown error"))
        ⟨str "test", .json ⟨str "Test Subject", str "Test Message"⟩⟩).sends =
      [⟨str "smtp", [str "email@example.com"], ⟨str "Test Subject", str "Test Message"⟩⟩] := by
  have h := messageHandler_dispatch
    ⟨[(str "test", ⟨[⟨str "smtp", [str "email@example.com"]⟩]⟩)]⟩
    (fun _ _ _ => some (str "Unknown error"))
    ⟨str "test", .json ⟨str "Test Subject", str "Test Message"⟩⟩
    ⟨[⟨str "smtp", [str "email@example.com"]⟩]⟩
    ⟨str "Test Subject", str "Test Message"⟩ (by decide) (by decide) rfl (by decide)
  exact ⟨h.1, h.2.1, by rw [h.2.2]; rfl⟩

/-- C6: a missing/empty `target` parameter yields `400` with body
`Parameter 'target' is missed`; an unknown target yields `400` with a body
mentioning the target name; a missing body, malformed JSON body or empty
`text` field yields `400`; and in every such case no `Send` is invoked. -/
theorem messageHandler_request_errors (cfg : TargetsConfig)
    (sendErr : Str → List Str → Message → Option Str) (r : Request) :
    (r.target = [] →
      (messageHandler cfg sendErr r).status = 400 ∧
      trimNl (messageHandler cfg sendErr r).body = str "Parameter 'target' is missed" ∧
      (messageHandler cfg sendErr r).sends = []) ∧
    (¬ r.target = [] → lookupTarget cfg.targets r.target = none →
      (messageHandler cfg sendErr r).status = 400 ∧
      isSubstr r.target (messageHandler cfg sendErr r).body = true ∧
      (messageHandler cfg sendErr r).sends = []) ∧
    ((r.body = .noBody ∨ r.body = .invalid ∨ ∃ m, r.body = .json m ∧ m.text = []) →
      (messageHandler cfg sendErr r).status = 400 ∧
      (messageHandler cfg sendErr r).sends = []) := by
  refine ⟨?_, ?_, ?_⟩
  · intro h
    refine ⟨by simp [messageHandler, h, httpError], ?_, by simp [messageHandler, h, httpError]⟩
    simp only [messageHandler, h, if_pos]
    decide
  · intro hne hlook
    refine ⟨by simp [messageHandler, hne, hlook, httpError], ?_,
      by simp [messageHandler, hne, hlook, httpError]⟩
    simp only [messageHandler, hne, if_neg, hlook, httpError]
    have : str "Unknown target " ++ quoted r.target ++ ['\n'] =
        (str "Unknown target " ++ ['"']) ++ r.target ++ ['"', '\n'] := by
      simp [quoted]
    rw [this]
    exact isSubstr_of_append r.target (str "Unknown target " ++ ['"']) ['"', '\n']
  · intro hbody
    by_cases hne : r.target = []
    · exact ⟨by simp [messageHandler, hne, httpError], by simp [messageHandler, hne, httpError]⟩
    · cases hlook : lookupTarget cfg.targets r.target with
      | none => exact ⟨by simp [messageHandler, hne, hlook, httpError],
          by simp [messageHandler, hne, hlook, httpError]⟩
      | some tgt =>
        rcases hbody with h | h | ⟨m, h, hm⟩
        · simp [messageHandler, hne, hlook, h, httpError]
        · simp [messageHandler, hne, hlook, h, httpError]
        · simp [messageHandler, hne, hlook, h, hm, httpError]

theorem messageHandler_request_errors_witness :
    ((messageHandler ⟨[(str "test", ⟨[⟨str "smtp", [str "email@example.com"]⟩]⟩)]⟩
        (fun _ _ _ => none) ⟨[], .json ⟨[], str "x"⟩⟩).status = 400 ∧
      trimNl (messageHandler ⟨[(str "test", ⟨[⟨str "smtp", [str "email@example.com"]⟩]⟩)]⟩
        (fun _ _ _ => none) ⟨[], .json ⟨[], str "x"⟩⟩).body =
        str "Parameter 'target' is missed" ∧
      (messageHandler ⟨[(str "test", ⟨[⟨str "smtp", [str "email@example.com"]⟩]⟩)]⟩
        (fun _ _ _ => none) ⟨[], .json ⟨[], str "x"⟩⟩).sends = []) ∧
    ((messageHandler ⟨[(str "test", ⟨[⟨str "smtp", [str "email@example.com"]⟩]⟩)]⟩
        (fun _ _ _ => none) ⟨str "badtarget", .json ⟨[], str "x"⟩⟩).status = 400 ∧
      isSubstr (str "badtarget")
        (messageHandler ⟨[(str "test", ⟨[⟨str "smtp", [str "email@example.com"]⟩]⟩)]⟩
          (fun _ _ _ => none) ⟨str "badtarget", .json ⟨[], str "x"⟩⟩).body = true ∧
      (messageHandler ⟨[(str "test", ⟨[⟨str "smtp", [str "email@example.com"]⟩]⟩)]⟩
        (fun _ _ _ => none) ⟨str "badtarget", .json ⟨[], str "x"⟩⟩).sends = []) ∧
    ((messageHandler ⟨[(str "test", ⟨[⟨str "smtp", [str "email@example.com"]⟩]⟩)]⟩
        (fun _ _ _ => none) ⟨str "test", .json ⟨str "s", []⟩⟩).status = 400 ∧
      (messageHandler ⟨[(str "test", ⟨[⟨str "smtp", [str "email@example.com"]⟩]⟩)]⟩
        (fun _ _ _ => none) ⟨str "test", .json ⟨str "s", []⟩⟩).sends = []) :=
  ⟨(messageHandler_request_errors _ _ _).1 rfl,
    (messageHandler_request_errors _ _ _).2.1 (by decide) (by decide),
    (messageHandler_request_errors _ _ _).2.2 (Or.inr (Or.inr ⟨⟨str "s", []⟩, rfl, rfl⟩))⟩

/-! ### Splitting and joining -/

theorem splitOn_nil (sep : Char) : splitOn sep [] = [[]] := rfl

theorem splitOn_cons_sep (sep : Char) (cs : Str) :
    splitOn sep (sep :: cs) = [] :: splitOn sep cs := by
  simp [splitOn]

theorem splitOn_cons_ne (sep c : Char) (cs p : Str) (ps : List Str) (h : ¬ c = sep)
    (hr : splitOn sep cs = p :: ps) : splitOn sep (c :: cs) = (c :: p) :: ps := by
  simp [splitOn, h, hr]

theorem splitOn_cons_exists (sep : Char) (s : Str) : ∃ p ps, splitOn sep s = p :: ps := by
  induction s with
  | nil => exact ⟨[], [], rfl⟩
  | cons c cs ih =>
    by_cases hc : c = sep
    · exact ⟨[], splitOn sep cs, by rw [hc]; exact splitOn_cons_sep sep cs⟩
    · obtain ⟨p, ps, hp⟩ := ih
      exact ⟨c :: p, ps, splitOn_cons_ne sep c cs p ps hc hp⟩

theorem splitOn_no_sep (sep : Char) (p : Str) (h : sep ∉ p) : splitOn sep p = [p] := by
  induction p with
  | nil => rfl
  | cons c cs ih =>
    have hc : ¬ c = sep := fun hb => h (by simp [hb])
    exact splitOn_cons_ne sep c cs cs [] hc (ih fun hm => h (by simp [hm]))

theorem splitOn_append (sep : Char) (p t : Str) (h : sep ∉ p) :
    splitOn sep (p ++ sep :: t) = p :: splitOn sep t := by
  induction p with
  | nil => simpa using splitOn_cons_sep sep t
  | cons c cs ih =>
    have hc : ¬ c = sep := fun hb => h (by simp [hb])
    have hr := ih fun hm => h (by simp [hm])
    simpa using splitOn_cons_ne sep c (cs ++ sep :: t) cs (splitOn sep t) hc hr

theorem splitOn_parts_no_sep (sep : Char) (s : Str) : ∀ p ∈ splitOn sep s, sep ∉ p := by
  induction s with
  | nil =>
    intro p hp hm
    rw [splitOn_nil] at hp
    simp only [List.mem_singleton] at hp
    subst hp
    simp at hm
  | cons c cs ih =>
    intro p hp hm
    by_cases hc : c = sep
    · subst hc
      rw [splitOn_cons_sep] at hp
      rcases List.mem_cons.mp hp with rfl | hp'
      · simp at hm
      · exact ih p hp' hm
    · obtain ⟨q, qs, hq⟩ := splitOn_cons_exists sep cs
      rw [splitOn_cons_ne sep c cs q qs hc hq] at hp
      rcases List.mem_cons.mp hp with rfl | hp'
      · rcases List.mem_cons.mp hm with heq | hm2
        · exact hc heq.symm
        · exact ih q (by rw [hq]; simp) hm2
      · exact ih p (by rw [hq]; simp [hp']) hm

theorem joinSep_cons_cons (sep : Char) (p q : Str) (ps : List Str) :
    joinSep sep (p :: q :: ps) = p ++ sep :: joinSep sep (q :: ps) := rfl

theorem joinSep_ne_nil (sep : Char) (p : Str) (ps : List Str) (h : ¬ p = []) :
    ¬ joinSep sep (p :: ps) = [] := by
  cases ps with
  | nil => exact h
  | cons q ps' => simp [joinSep_cons_cons]

theorem splitOn_joinSep (sep : Char) (ps : List Str) (hne : ¬ ps = [])
    (h : ∀ p ∈ ps, sep ∉ p) : splitOn sep (joinSep sep ps) = ps := by
  induction ps with
  | nil => exact absurd rfl hne
  | cons p ps ih =>
    cases ps with
    | nil => exact splitOn_no_sep sep p (h p (by simp))
    | cons q ps' =>
      rw [joinSep_cons_cons, splitOn_append sep p _ (h p (by simp)),
        ih (by simp) fun u hu => h u (by simp [hu])]

/-! ### The decode loop -/

theorem parseEntry_isSome_iff (v : Str) : (parseEntry v).isSome ↔ EntryOk v := by
  rcases h : splitOn ':' v with _ | ⟨a, _ | ⟨b, _ | ⟨c, _ | ⟨d, l⟩⟩⟩⟩
  · simp [parseEntry, EntryOk, h]
  · simp [parseEntry, EntryOk, h]
  · simp [parseEntry, EntryOk, h]
  · simp only [parseEntry, EntryOk, h]
    constructor
    · intro hs
      by_cases hcond : a = [] ∨ b = [] ∨ c = []
      · simp [hcond] at hs
      · push_neg at hcond
        exact ⟨a, b, c, rfl, hcond.1, hcond.2.1, hcond.2.2⟩
    · rintro ⟨t, d, r, heq, h1, h2, h3⟩
      obtain ⟨rfl, rfl, rfl⟩ : a = t ∧ b = d ∧ c = r := by simpa using heq
      simp [h1, h2, h3]
  · simp [parseEntry, EntryOk, h]

theorem EntryOk_ne_nil (v : Str) (h : EntryOk v) : ¬ v = [] := by
  intro hb
  subst hb
  obtain ⟨t, d, r, hsp, _⟩ := h
  rw [splitOn_nil] at hsp
  simp at hsp

theorem decodeEntries_nil (ts : List (Str × Target)) : decodeEntries ts [] = (ts, none) :=
  rfl

theorem decodeEntries_ok_iff (es : List Str) :
    ∀ ts : List (Str × Target),
      ((decodeEntries ts es).2 = none ↔ ∀ v ∈ es, (parseEntry v).isSome) := by
  induction es with
  | nil => intro ts; simp [decodeEntries]
  | cons v vs ih =>
    intro ts
    rcases h : parseEntry v with _ | ⟨⟨t0, d0, r0⟩⟩
    · simp [decodeEntries, h]
    · simp [decodeEntries, h, ih]

theorem decodeEntries_first_bad (good : List Str) :
    ∀ (ts : List (Str × Target)) (bad : Str) (rest : List Str),
      (∀ v ∈ good, (parseEntry v).isSome) → parseEntry bad = none →
      decodeEntries ts (good ++ bad :: rest) =
        ((decodeEntries ts good).1, some ⟨.invTargetSyntax, bad⟩) := by
  induction good with
  | nil => intro ts bad rest _ hb; simp [decodeEntries, hb]
  | cons v vs ih =>
    intro ts bad rest hg hb
    have hv := hg v (by simp)
    rcases hx : parseEntry v with _ | ⟨⟨t0, d0, r0⟩⟩
    · rw [hx] at hv; simp at hv
    · simp only [List.cons_append, decodeEntries, hx]
      exact ih _ bad rest (fun u hu => hg u (by simp [hu])) hb

theorem exists_first_bad (es : List Str) (h : ¬ ∀ v ∈ es, (parseEntry v).isSome) :
    ∃ good bad rest, es = good ++ bad :: rest ∧ (∀ v ∈ good, (parseEntry v).isSome) ∧
      parseEntry bad = none := by
  induction es with
  | nil => exact absurd (by simp) h
  | cons v vs ih =>
    rcases hv : parseEntry v with _ | x
    · exact ⟨[], v, vs, rfl, by simp, hv⟩
    · have hvs : ¬ ∀ u ∈ vs, (parseEntry u).isSome := by
        intro hall
        refine h ?_
        intro u hu
        rcases List.mem_cons.mp hu with rfl | hm
        · simp [hv]
        · exact hall u hm
      obtain ⟨good, bad, rest, heq, hgood, hbad⟩ := ih hvs
      refine ⟨v :: good, bad, rest, by simp [heq], ?_, hbad⟩
      intro u hu
      rcases List.mem_cons.mp hu with rfl | hm
      · simp [hv]
      · exact hgood u hm

/-! ### Insertion into the configuration -/

theorem recipsIn_addToDelivery (ds : List Delivery) (d r d' : Str) :
    recipsIn (addToDelivery ds d r) d' =
      recipsIn ds d' ++ (if d' = d then [r] else []) := by
  induction ds with
  | nil =>
    by_cases h : d' = d
    · rw [h]; simp [addToDelivery, findDelivery, recipsIn]
    · have h2 : ¬ d = d' := fun hb => h hb.symm
      simp [addToDelivery, findDelivery, recipsIn, h, h2]
  | cons dv ds ih =>
    by_cases h1 : dv.name = d
    · by_cases h2 : dv.name = d'
      · have h3 : d' = d := by rw [← h2, h1]
        simp [addToDelivery, findDelivery, recipsIn, h1, h2, h3]
      · have h3 : ¬ d' = d := fun hb => h2 (by rw [h1, ← hb])
        have h4 : ¬ d = d' := fun hb => h3 hb.symm
        simp [addToDelivery, findDelivery, recipsIn, h1, h2, h3, h4]
    · by_cases h2 : dv.name = d'
      · have h3 : ¬ d' = d := fun hb => h1 (h2.trans hb)
        simp [addToDelivery, findDelivery, recipsIn, h1, h2, h3]
      · simp only [addToDelivery, if_neg h1]
        simp [findDelivery, recipsIn, h2] at ih ⊢
        exact ih

theorem recipientsOf_addTriple (ts : List (Str × Target)) (ti di r t d : Str) :
    recipientsOf (addTriple ts ti di r) t d =
      recipientsOf ts t d ++ (if t = ti ∧ d = di then [r] else []) := by
  induction ts with
  | nil =>
    by_cases h : ti = t
    · rw [h]
      by_cases h2 : d = di
      · rw [h2]; simp [addTriple, lookupTarget, recipientsOf, recipsIn, findDelivery]
      · have h3 : ¬ di = d := fun hb => h2 hb.symm
        simp [addTriple, lookupTarget, recipientsOf, recipsIn, findDelivery, h2, h3]
    · have h2 : ¬ t = ti := fun hb => h hb.symm
      simp [addTriple, lookupTarget, recipientsOf, h, h2]
  | cons p ts ih =>
    obtain ⟨k, tgt⟩ := p
    by_cases hk : k = ti
    · by_cases hk' : k = t
      · have ht : t = ti := by rw [← hk', hk]
        simp only [addTriple, if_pos hk, recipientsOf, lookupTarget, if_pos hk', ht,
          true_and]
        exact recipsIn_addToDelivery tgt.deliveries di r d
      · have ht : ¬ t = ti := fun hb => hk' (by rw [hk, ← hb])
        have ht2 : ¬ ti = t := fun hb => ht hb.symm
        simp [addTriple, hk, recipientsOf, lookupTarget, hk', ht, ht2]
    · by_cases hk' : k = t
      · have ht : ¬ t = ti := fun hb => hk (hk'.trans hb)
        simp [addTriple, hk, recipientsOf, lookupTarget, hk', ht]
      · simp only [addTriple, if_neg hk]
        simp only [recipientsOf, lookupTarget, if_neg hk'] at ih ⊢
        exact ih

theorem names_addToDelivery (ds : List Delivery) (d r : Str) :
    (addToDelivery ds d r).map Delivery.name =
      if d ∈ ds.map Delivery.name then ds.map Delivery.name
      else ds.map Delivery.name ++ [d] := by
  induction ds with
  | nil => simp [addToDelivery]
  | cons dv ds ih =>
    by_cases h : dv.name = d
    · simp [addToDelivery, h]
    · have h2 : ¬ d = dv.name := fun hb => h hb.symm
      by_cases hm : d ∈ ds.map Delivery.name
      · simp [addToDelivery, h, ih, hm, h2]
      · simp [addToDelivery, h, ih, hm, h2]

theorem namesNodup_addToDelivery (ds : List Delivery) (d r : Str)
    (h : (ds.map Delivery.name).Nodup) :
    ((addToDelivery ds d r).map Delivery.name).Nodup := by
  rw [names_addToDelivery]
  by_cases hm : d ∈ ds.map Delivery.name
  · simp [hm, h]
  · simp [hm, List.nodup_append, h]

theorem keys_addTriple (ts : List (Str × Target)) (t d r : Str) :
    (addTriple ts t d r).map Prod.fst =
      if t ∈ ts.map Prod.fst then ts.map Prod.fst else ts.map Prod.fst ++ [t] := by
  induction ts with
  | nil => simp [addTriple]
  | cons p ts ih =>
    obtain ⟨k, tgt⟩ := p
    by_cases hk : k = t
    · simp only [addTriple, if_pos hk, List.map_cons]
      rw [if_pos (show t ∈ k :: ts.map Prod.fst by rw [hk]; exact List.mem_cons_self _ _)]
    · have h2 : ¬ t = k := fun hb => hk hb.symm
      simp only [addTriple, if_neg hk, List.map_cons, ih]
      by_cases hm : t ∈ ts.map Prod.fst
      · rw [if_pos hm, if_pos (List.mem_cons.mpr (Or.inr hm))]
      · rw [if_neg hm, if_neg (by simp [List.mem_cons, h2, hm])]
        simp

theorem keysNodup_addTriple (ts : List (Str × Target)) (t d r : Str)
    (h : (ts.map Prod.fst).Nodup) :
    ((addTriple ts t d r).map Prod.fst).Nodup := by
  rw [keys_addTriple]
  by_cases hm : t ∈ ts.map Prod.fst
  · simp [hm, h]
  · simp [hm, List.nodup_append, h]

theorem deliveriesNodup_addTriple (ts : List (Str × Target)) (t d r : Str)
    (h : ∀ p ∈ ts, ((p.2.deliveries.map Delivery.name).Nodup)) :
    ∀ p ∈ addTriple ts t d r, ((p.2.deliveries.map Delivery.name).Nodup) := by
  induction ts with
  | nil =>
    intro p hp
    simp only [addTriple, List.mem_singleton] at hp
    subst hp
    simp
  | cons q ts ih =>
    obtain ⟨k, tgt⟩ := q
    intro p hp
    by_cases hk : k = t
    · simp only [addTriple, if_pos hk, List.mem_cons] at hp
      rcases hp with rfl | hp
      · exact namesNodup_addToDelivery tgt.deliveries d r (h (k, tgt) (by simp))
      · exact h p (by simp [hp])
    · simp only [addTriple, if_neg hk, List.mem_cons] at hp
      rcases hp with rfl | hp
      · exact h (k, tgt) (by simp)
      · exact ih (fun q hq => h q (by simp [hq])) p hp

theorem lookupTarget_of_mem (ts : List (Str × Target)) (tn : Str) (tgt : Target)
    (hnd : (ts.map Prod.fst).Nodup) (hm : (tn, tgt) ∈ ts) :
    lookupTarget ts tn = some tgt := by
  induction ts with
  | nil => simp at hm
  | cons p ts ih =>
    obtain ⟨k, tg⟩ := p
    simp only [List.map_cons, List.nodup_cons] at hnd
    rcases List.mem_cons.mp hm with heq | hm'
    · obtain ⟨rfl, rfl⟩ := Prod.mk.injEq tn tgt k tg ▸ heq
      simp [lookupTarget]
    · by_cases hk : k = tn
      · exfalso
        subst hk
        exact hnd.1 (List.mem_map.mpr ⟨(k, tgt), hm', rfl⟩)
      · simpa [lookupTarget, hk] using ih hnd.2 hm'

theorem findDelivery_of_mem (ds : List Delivery) (dv : Delivery)
    (hnd : (ds.map Delivery.name).Nodup) (hm : dv ∈ ds) :
    findDelivery ds dv.name = some dv := by
  induction ds with
  | nil => simp at hm
  | cons d0 ds ih =>
    simp only [List.map_cons, List.nodup_cons] at hnd
    rcases List.mem_cons.mp hm with rfl | hm'
    · simp [findDelivery]
    · by_cases hk : d0.name = dv.name
      · exfalso
        exact hnd.1 (hk ▸ List.mem_map.mpr ⟨dv, hm', rfl⟩)
      · simpa [findDelivery, hk] using ih hnd.2 hm'

theorem recipientsOf_mem (ts : List (Str × Target)) (tn : Str) (tgt : Target)
    (dv : Delivery) (hnd : (ts.map Prod.fst).Nodup)
    (hdnd : (tgt.deliveries.map Delivery.name).Nodup)
    (hm : (tn, tgt) ∈ ts) (hdm : dv ∈ tgt.deliveries) :
    recipientsOf ts tn dv.name = dv.recipients := by
  rw [recipientsOf, lookupTarget_of_mem ts tn tgt hnd hm]
  simp only [recipsIn, findDelivery_of_mem tgt.deliveries dv hdnd hdm]

/-! ### Folding the decode loop -/

theorem decodeEntries_recipientsOf (es : List Str) :
    ∀ ts : List (Str × Target),
      (∀ v ∈ es, (parseEntry v).isSome) → ∀ t d : Str,
      recipientsOf (decodeEntries ts es).1 t d =
        recipientsOf ts t d ++ collectRecipients es t d := by
  induction es with
  | nil => intro ts _ t d; simp [decodeEntries, collectRecipients]
  | cons v vs ih =>
    intro ts hall t d
    rcases hx : parseEntry v with _ | ⟨⟨t0, d0, r0⟩⟩
    · have := hall v (by simp); simp [hx] at this
    · simp only [decodeEntries, hx]
      rw [ih _ (fun u hu => hall u (by simp [hu])) t d, recipientsOf_addTriple]
      simp only [collectRecipients, List.filterMap_cons, hx]
      by_cases hc : t = t0 ∧ d = d0
      · simp only [if_pos hc, List.append_assoc, List.singleton_append]
      · simp only [if_neg hc, List.append_nil]

theorem decodeEntries_nodups (es : List Str) :
    ∀ ts : List (Str × Target),
      (ts.map Prod.fst).Nodup →
      (∀ p ∈ ts, ((p.2.deliveries.map Delivery.name).Nodup)) →
      (((decodeEntries ts es).1.map Prod.fst).Nodup ∧
        ∀ p ∈ (decodeEntries ts es).1, ((p.2.deliveries.map Delivery.name).Nodup)) := by
  induction es with
  | nil => intro ts h1 h2; exact ⟨h1, h2⟩
  | cons v vs ih =>
    intro ts h1 h2
    rcases hx : parseEntry v with _ | ⟨⟨t0, d0, r0⟩⟩
    · simp only [decodeEntries, hx]
      exact ⟨h1, h2⟩
    · simp only [decodeEntries, hx]
      exact ih _ (keysNodup_addTriple ts t0 d0 r0 h1)
        (deliveriesNodup_addTriple ts t0 d0 r0 h2)

/-- C4: `Decode` succeeds exactly when the input is empty or every
comma-separated entry splits into exactly three non-empty colon-separated
fields; the empty string yields the empty configuration; a failure is an
`invalid target's syntax` error carrying an offending raw entry; and on
success every target's delivery names are distinct, with each delivery
holding exactly the recipients the input assigns to its
`target:delivery` pair, in input order. -/
theorem Decode_spec (value : Str) :
    ((Decode ⟨[]⟩ value).2 = none ↔
      value = [] ∨ ∀ v ∈ splitOn ',' value, EntryOk v) ∧
    (value = [] → Decode ⟨[]⟩ value = (⟨[]⟩, none)) ∧
    (∀ e, (Decode ⟨[]⟩ value).2 = some e →
      e.kind = .invTargetSyntax ∧ e.target ∈ splitOn ',' value ∧ ¬ EntryOk e.target) ∧
    ((Decode ⟨[]⟩ value).2 = none →
      ∀ p ∈ (Decode ⟨[]⟩ value).1.targets,
        ((p.2.deliveries.map Delivery.name).Nodup ∧
          ∀ dv ∈ p.2.deliveries,
            dv.recipients = collectRecipients (splitOn ',' value) p.1 dv.name)) := by
  by_cases hval : value = []
  · subst hval
    refine ⟨by simp [Decode], fun _ => rfl, ?_, ?_⟩
    · intro e he; simp [Decode] at he
    · intro _ p hp; simp [Decode] at hp
  · have hdec : Decode ⟨[]⟩ value =
        (⟨(decodeEntries [] (splitOn ',' value)).1⟩,
          (decodeEntries [] (splitOn ',' value)).2) := by
      simp [Decode, hval]
    refine ⟨?_, fun h => absurd h hval, ?_, ?_⟩
    · rw [hdec]
      simp only [decodeEntries_ok_iff]
      constructor
      · intro h
        exact Or.inr fun v hv => (parseEntry_isSome_iff v).mp (h v hv)
      · rintro (h | h)
        · exact absurd h hval
        · exact fun v hv => (parseEntry_isSome_iff v).mpr (h v hv)
    · intro e he
      rw [hdec] at he
      by_cases hall : ∀ v ∈ splitOn ',' value, (parseEntry v).isSome
      · rw [(decodeEntries_ok_iff (splitOn ',' value) []).mpr hall] at he
        simp at he
      · obtain ⟨good, bad, rest, heq, hgood, hbad⟩ :=
          exists_first_bad (splitOn ',' value) hall
        rw [heq, decodeEntries_first_bad good [] bad rest hgood hbad] at he
        simp only at he
        obtain rfl := Option.some.injEq .. ▸ he
        refine ⟨rfl, by rw [heq]; simp, ?_⟩
        intro hok
        have hsome := (parseEntry_isSome_iff bad).mpr hok
        rw [hbad] at hsome
        simp at hsome
    · intro hok p hp
      rw [hdec] at hok hp
      simp only at hok hp
      have hall : ∀ v ∈ splitOn ',' value, (parseEntry v).isSome :=
        (decodeEntries_ok_iff (splitOn ',' value) []).mp hok
      have hnd := decodeEntries_nodups (splitOn ',' value) [] (by simp) (by simp)
      refine ⟨hnd.2 p hp, ?_⟩
      intro dv hdv
      have hrec := decodeEntries_recipientsOf (splitOn ',' value) [] hall p.1 dv.name
      rw [recipientsOf_mem (decodeEntries [] (splitOn ',' value)).1 p.1 p.2 dv
        hnd.1 (hnd.2 p hp) (by simpa using hp) hdv] at hrec
      simpa [recipientsOf, lookupTarget] using hrec

theorem Decode_spec_witness :
    (Decode ⟨[]⟩ (str "t:smtp:a,t:smtp:b")).2 = none ∧
    ∀ p ∈ (Decode ⟨[]⟩ (str "t:smtp:a,t:smtp:b")).1.targets,
      ((p.2.deliveries.map Delivery.name).Nodup ∧
        ∀ dv ∈ p.2.deliveries,
          dv.recipients =
            collectRecipients (splitOn ',' (str "t:smtp:a,t:smtp:b")) p.1 dv.name) := by
  have h := Decode_spec (str "t:smtp:a,t:smtp:b")
  have hsp : splitOn ',' (str "t:smtp:a,t:smtp:b") = [str "t:smtp:a", str "t:smtp:b"] := by
    decide
  have hok : (Decode ⟨[]⟩ (str "t:smtp:a,t:smtp:b")).2 = none := by
    refine h.1.mpr (Or.inr ?_)
    intro v hv
    rw [hsp] at hv
    rcases List.mem_cons.mp hv with rfl | hv2
    · exact ⟨str "t", str "smtp", str "a", by decide, by decide, by decide, by decide⟩
    · rcases List.mem_cons.mp hv2 with rfl | hv3
      · exact ⟨str "t", str "smtp", str "b", by decide, by decide, by decide, by decide⟩
      · simp at hv3
  exact ⟨hok, h.2.2.2 hok⟩

/-- C10: `Decode` is not atomic on failure — when the entry list splits as
well-formed entries followed by the first malformed one, the call returns
the `invalid target's syntax` error for that entry, but the receiver is
left exactly as if the well-formed prefix alone had been decoded. -/
theorem Decode_partial_on_failure (cnf : TargetsConfig) (value : Str)
    (good rest : List Str) (bad : Str)
    (hval : ¬ value = [])
    (hsplit : splitOn ',' value = good ++ bad :: rest)
    (hgood : ∀ v ∈ good, EntryOk v) (hbad : ¬ EntryOk bad) :
    (Decode cnf value).2 = some ⟨.invTargetSyntax, bad⟩ ∧
    (Decode cnf value).1 = (Decode cnf (joinSep ',' good)).1 := by
  have hgood2 : ∀ v ∈ good, (parseEntry v).isSome :=
    fun v hv => (parseEntry_isSome_iff v).mpr (hgood v hv)
  have hbad2 : parseEntry bad = none := by
    rcases hpb : parseEntry bad with _ | x
    · rfl
    · exact absurd ((parseEntry_isSome_iff bad).mp (by simp [hpb])) hbad
  have hfb := decodeEntries_first_bad good cnf.targets bad rest hgood2 hbad2
  have hdec : Decode cnf value =
      (⟨(decodeEntries cnf.targets good).1⟩, some ⟨.invTargetSyntax, bad⟩) := by
    simp only [Decode, if_neg hval, hsplit, hfb]
  refine ⟨by rw [hdec], ?_⟩
  rw [hdec]
  by_cases hgnil : good = []
  · rw [hgnil]
    simp [joinSep, Decode, decodeEntries]
  · have hne : ¬ joinSep ',' good = [] := by
      cases good with
      | nil => exact absurd rfl hgnil
      | cons g gs =>
        exact joinSep_ne_nil ',' g gs (EntryOk_ne_nil g (hgood g (by simp)))
    have hmem : ∀ p ∈ good, ',' ∉ p := fun p hp =>
      splitOn_parts_no_sep ',' value p (by rw [hsplit]; exact List.mem_append_left _ hp)
    have hsj : splitOn ',' (joinSep ',' good) = good :=
      splitOn_joinSep ',' good hgnil hmem
    simp only [Decode, if_neg hne, hsj]

theorem Decode_partial_on_failure_witness :
    (Decode ⟨[]⟩ (str "t:smtp:a,bad,u:smtp:b")).2 =
      some ⟨.invTargetSyntax, str "bad"⟩ ∧
    (Decode ⟨[]⟩ (str "t:smtp:a,bad,u:smtp:b")).1 =
      (Decode ⟨[]⟩ (joinSep ',' [str "t:smtp:a"])).1 := by
  refine Decode_partial_on_failure ⟨[]⟩ (str "t:smtp:a,bad,u:smtp:b")
    [str "t:smtp:a"] [str "u:smtp:b"] (str "bad") (by decide) (by decide) ?_ ?_
  · intro v hv
    rcases List.mem_cons.mp hv with rfl | hv2
    · exact ⟨str "t", str "smtp", str "a", by decide, by decide, by decide, by decide⟩
    · simp at hv2
  · rintro ⟨t, d, r, hsp, -⟩
    rw [show splitOn ':' (str "bad") = [str "bad"] from by decide] at hsp
    simp at hsp

/-! ### Serialization round-trip -/

theorem fmtTriple_eq (x : Str × Str × Str) :
    fmtTriple x = x.1 ++ ':' :: (x.2.1 ++ ':' :: x.2.2) := by
  rw [fmtTriple]
  simp [List.append_assoc]

theorem splitOn_fmtTriple (x : Str × Str × Str) (h1 : ':' ∉ x.1) (h2 : ':' ∉ x.2.1)
    (h3 : ':' ∉ x.2.2) : splitOn ':' (fmtTriple x) = [x.1, x.2.1, x.2.2] := by
  rw [fmtTriple_eq, splitOn_append ':' x.1 _ h1, splitOn_append ':' x.2.1 _ h2,
    splitOn_no_sep ':' x.2.2 h3]

theorem parseEntry_fmtTriple (x : Str × Str × Str)
    (h : WFStr x.1 ∧ WFStr x.2.1 ∧ WFStr x.2.2) : parseEntry (fmtTriple x) = some x := by
  obtain ⟨⟨h1, h1c, _⟩, ⟨h2, h2c, _⟩, ⟨h3, h3c, _⟩⟩ := h
  simp [parseEntry, splitOn_fmtTriple x h1c h2c h3c, h1, h2, h3]

theorem comma_notin_fmtTriple (x : Str × Str × Str) (h1 : ',' ∉ x.1) (h2 : ',' ∉ x.2.1)
    (h3 : ',' ∉ x.2.2) : ',' ∉ fmtTriple x := by
  rw [fmtTriple_eq]
  intro hm
  rcases List.mem_append.mp hm with hma | hmb
  · exact h1 hma
  · rcases List.mem_cons.mp hmb with heq | hmc
    · exact absurd heq (by decide)
    · rcases List.mem_append.mp hmc with hmd | hme
      · exact h2 hmd
      · rcases List.mem_cons.mp hme with heq | hmf
        · exact absurd heq (by decide)
        · exact h3 hmf

theorem fmtTriple_ne_nil (x : Str × Str × Str) : ¬ fmtTriple x = [] := by
  rw [fmtTriple_eq]
  simp

theorem mem_targetTriples_addToDelivery (tn : Str) (ds : List Delivery) (d r : Str)
    (x : Str × Str × Str) :
    x ∈ targetTriples tn ⟨addToDelivery ds d r⟩ ↔
      x ∈ targetTriples tn ⟨ds⟩ ∨ x = (tn, d, r) := by
  induction ds with
  | nil => simp [addToDelivery, targetTriples]
  | cons dv ds ih =>
    by_cases hd : dv.name = d
    · have hstep : addToDelivery (dv :: ds) d r =
          ⟨dv.name, dv.recipients ++ [r]⟩ :: ds := by
        simp [addToDelivery, hd]
      rw [hstep]
      simp only [targetTriples, List.flatMap_cons, List.mem_append, List.map_append,
        List.map_cons, List.map_nil, List.mem_singleton, List.mem_cons, hd]
      tauto
    · have hstep : addToDelivery (dv :: ds) d r = dv :: addToDelivery ds d r := by
        simp [addToDelivery, hd]
      rw [hstep]
      simp only [targetTriples, List.flatMap_cons, List.mem_append] at ih ⊢
      tauto

theorem mem_triples_addTriple (ts : List (Str × Target)) (t d r : Str)
    (x : Str × Str × Str) :
    x ∈ triples (addTriple ts t d r) ↔ x ∈ triples ts ∨ x = (t, d, r) := by
  induction ts with
  | nil => simp [addTriple, triples, targetTriples]
  | cons p ts ih =>
    obtain ⟨k, tgt⟩ := p
    obtain ⟨dels⟩ := tgt
    by_cases hk : k = t
    · subst hk
      have hstep : addTriple ((k, ⟨dels⟩) :: ts) k d r =
          (k, ⟨addToDelivery dels d r⟩) :: ts := by
        simp [addTriple]
      rw [hstep]
      simp only [triples, List.flatMap_cons, List.mem_append]
      rw [mem_targetTriples_addToDelivery k dels d r x]
      tauto
    · have hstep : addTriple ((k, ⟨dels⟩) :: ts) t d r =
          (k, ⟨dels⟩) :: addTriple ts t d r := by
        simp [addTriple, hk]
      rw [hstep]
      simp only [triples, List.flatMap_cons, List.mem_append] at ih ⊢
      tauto

theorem mem_triples_decodeEntries (es : List Str) :
    ∀ ts : List (Str × Target),
      (∀ v ∈ es, (parseEntry v).isSome) → ∀ x,
      (x ∈ triples (decodeEntries ts es).1 ↔
        x ∈ triples ts ∨ ∃ v ∈ es, parseEntry v = some x) := by
  induction es with
  | nil => intro ts _ x; simp [decodeEntries]
  | cons v vs ih =>
    intro ts hall x
    rcases hx : parseEntry v with _ | ⟨⟨t0, d0, r0⟩⟩
    · have := hall v (by simp); simp [hx] at this
    · simp only [decodeEntries, hx]
      rw [ih _ (fun u hu => hall u (by simp [hu])) x, mem_triples_addTriple]
      simp only [List.mem_cons, exists_eq_or_imp, hx]
      constructor
      · rintro ((h | h) | h)
        · exact Or.inl h
        · exact Or.inr (Or.inl (by rw [h]))
        · exact Or.inr (Or.inr h)
      · rintro (h | h | h)
        · exact Or.inl (Or.inl h)
        · exact Or.inl (Or.inr (by injection h with h2; rw [h2]))
        · exact Or.inr h

/-- C8: for a validly-constructed configuration (non-empty fields free of
the separator characters), decoding the serialized comma-separated
`target:delivery:recipient` string succeeds and yields a configuration with
exactly the same set of `(target, delivery, recipient)` triples. -/
theorem Decode_serialize_roundtrip (cfg : TargetsConfig)
    (hwf : ∀ x ∈ triples cfg.targets, WFStr x.1 ∧ WFStr x.2.1 ∧ WFStr x.2.2) :
    (Decode ⟨[]⟩ (serialize cfg)).2 = none ∧
    ∀ x, (x ∈ triples (Decode ⟨[]⟩ (serialize cfg)).1.targets ↔
      x ∈ triples cfg.targets) := by
  by_cases hts : triples cfg.targets = []
  · have hser : serialize cfg = [] := by rw [serialize, hts]; rfl
    constructor
    · rw [hser]
      rfl
    · intro x
      rw [hser, show Decode ⟨[]⟩ [] = (⟨[]⟩, none) from rfl, hts]
      simp [triples]
  · have hpne : ¬ (triples cfg.targets).map fmtTriple = [] := by
      simpa using hts
    have hpwf : ∀ p ∈ (triples cfg.targets).map fmtTriple, ',' ∉ p := by
      intro p hp
      obtain ⟨x, hx, rfl⟩ := List.mem_map.mp hp
      obtain ⟨⟨_, _, h1⟩, ⟨_, _, h2⟩, ⟨_, _, h3⟩⟩ := hwf x hx
      exact comma_notin_fmtTriple x h1 h2 h3
    have hsplit : splitOn ',' (serialize cfg) = (triples cfg.targets).map fmtTriple := by
      rw [serialize]
      exact splitOn_joinSep ',' _ hpne hpwf
    have hallok : ∀ v ∈ (triples cfg.targets).map fmtTriple, (parseEntry v).isSome := by
      intro v hv
      obtain ⟨x, hx, rfl⟩ := List.mem_map.mp hv
      simp [parseEntry_fmtTriple x (hwf x hx)]
    have hserne : ¬ serialize cfg = [] := by
      rw [serialize]
      rcases hl : (triples cfg.targets).map fmtTriple with _ | ⟨p, ps⟩
      · exact absurd hl hpne
      · refine joinSep_ne_nil ',' p ps ?_
        obtain ⟨x, _, rfl⟩ := List.mem_map.mp (hl ▸ List.mem_cons_self p ps)
        exact fmtTriple_ne_nil x
    have hdec : Decode ⟨[]⟩ (serialize cfg) =
        (⟨(decodeEntries [] ((triples cfg.targets).map fmtTriple)).1⟩,
          (decodeEntries [] ((triples cfg.targets).map fmtTriple)).2) := by
      simp [Decode, hserne, hsplit]
    constructor
    · rw [hdec]
      exact (decodeEntries_ok_iff _ []).mpr hallok
    · intro x
      rw [hdec]
      simp only
      rw [mem_triples_decodeEntries _ [] hallok x]
      simp only [triples, List.flatMap_nil, List.not_mem_nil, false_or]
      constructor
      · rintro ⟨v, hv, hpv⟩
        obtain ⟨y, hy, rfl⟩ := List.mem_map.mp hv
        rw [parseEntry_fmtTriple y (hwf y hy)] at hpv
        injection hpv with h2
        rw [← h2]
        exact hy
      · intro hx
        exact ⟨fmtTriple x, List.mem_map_of_mem fmtTriple hx,
          parseEntry_fmtTriple x (hwf x hx)⟩

theorem Decode_serialize_roundtrip_witness :
    (Decode ⟨[]⟩
      (serialize ⟨[(str "t", ⟨[⟨str "smtp", [str "a", str "b"]⟩, ⟨str "sms", [str "c"]⟩]⟩),
        (str "u", ⟨[⟨str "smtp", [str "d"]⟩]⟩)]⟩)).2 = none ∧
    ∀ x, (x ∈ triples (Decode ⟨[]⟩
      (serialize ⟨[(str "t", ⟨[⟨str "smtp", [str "a", str "b"]⟩, ⟨str "sms", [str "c"]⟩]⟩),
        (str "u", ⟨[⟨str "smtp", [str "d"]⟩]⟩)]⟩)).1.targets ↔
      x ∈ triples [(str "t", ⟨[⟨str "smtp", [str "a", str "b"]⟩, ⟨str "sms", [str "c"]⟩]⟩),
        (str "u", ⟨[⟨str "smtp", [str "d"]⟩]⟩)]) := by
  refine Decode_serialize_roundtrip
    ⟨[(str "t", ⟨[⟨str "smtp", [str "a", str "b"]⟩, ⟨str "sms", [str "c"]⟩]⟩),
      (str "u", ⟨[⟨str "smtp", [str "d"]⟩]⟩)]⟩ ?_
  intro x hx
  have htr : triples [(str "t", ⟨[⟨str "smtp", [str "a", str "b"]⟩, ⟨str "sms", [str "c"]⟩]⟩),
      (str "u", ⟨[⟨str "smtp", [str "d"]⟩]⟩)] =
      [(str "t", str "smtp", str "a"), (str "t", str "smtp", str "b"),
        (str "t", str "sms", str "c"), (str "u", str "smtp", str "d")] := by decide
  rw [htr] at hx
  rcases List.mem_cons.mp hx with rfl | hx
  · exact ⟨⟨by decide, by decide, by decide⟩, ⟨by decide, by decide, by decide⟩,
      by decide, by decide, by decide⟩
  rcases List.mem_cons.mp hx with rfl | hx
  · exact ⟨⟨by decide, by decide, by decide⟩, ⟨by decide, by decide, by decide⟩,
      by decide, by decide, by decide⟩
  rcases List.mem_cons.mp hx with rfl | hx
  · exact ⟨⟨by decide, by decide, by decide⟩, ⟨by decide, by decide, by decide⟩,
      by decide, by decide, by decide⟩
  rcases List.mem_cons.mp hx with rfl | hx
  · exact ⟨⟨by decide, by decide, by decide⟩, ⟨by decide, by decide, by decide⟩,
      by decide, by decide, by decide⟩
  · simp at hx

/-! ### The validator -/

theorem validateTriple_eq_none_iff (supported : List Str) (x : Str × Str × Str) :
    validateTriple supported x = none ↔
      x.2.1 ∈ supported ∧ (x.2.1 = DeliverySMTP → emailMatch x.2.2 = true) := by
  rw [validateTriple]
  by_cases h1 : x.2.1 ∈ supported
  · by_cases h2 : x.2.1 = DeliverySMTP ∧ ¬ emailMatch x.2.2 = true
    · simp only [h1, not_true_eq_false, if_false, if_pos h2]
      simp [h2.1, h2.2, h1]
    · rw [if_neg (not_not_intro h1), if_neg h2]
      push_neg at h2
      exact iff_of_true rfl ⟨h1, h2⟩
  · simp [h1]

theorem findSome?_eq_none_iff {α β : Type} (f : α → Option β) (l : List α) :
    l.findSome? f = none ↔ ∀ x ∈ l, f x = none := by
  induction l with
  | nil => simp
  | cons a as ih =>
    rcases ha : f a with _ | b
    · simp [List.findSome?_cons, ha, ih]
    · simp [List.findSome?_cons, ha]

theorem findSome?_first {α β : Type} (f : α → Option β) (pre : List α) :
    ∀ (x : α) (post : List α) (e : β),
      (∀ y ∈ pre, f y = none) → f x = some e →
      (pre ++ x :: post).findSome? f = some e := by
  induction pre with
  | nil => intro x post e _ hx; simp [List.findSome?_cons, hx]
  | cons y ys ih =>
    intro x post e hpre hx
    have hy : f y = none := hpre y (by simp)
    simp only [List.cons_append, List.findSome?_cons, hy]
    exact ih x post e (fun u hu => hpre u (by simp [hu])) hx

/-- C5: the validator rejects a configuration with zero targets with
`empty targets`; it succeeds exactly when there is at least one target and
every `(target, delivery, recipient)` triple has a supported delivery and,
for the SMTP delivery, a recipient matching the e-mail pattern; and the
first offending triple in iteration order produces `unsupported delivery
type` or `invalid email` with the `target:delivery:recipient` diagnostic. -/
theorem validate_spec (supported : List Str) (cnf : TargetsConfig) :
    (cnf.targets = [] → validateTargetConfig supported cnf = some ⟨.emptyTargets, []⟩) ∧
    (validateTargetConfig supported cnf = none ↔
      (¬ cnf.targets = [] ∧ ∀ x ∈ triples cnf.targets,
        x.2.1 ∈ supported ∧ (x.2.1 = DeliverySMTP → emailMatch x.2.2 = true))) ∧
    (∀ pre x post, ¬ cnf.targets = [] →
      triples cnf.targets = pre ++ x :: post →
      (∀ y ∈ pre, y.2.1 ∈ supported ∧ (y.2.1 = DeliverySMTP → emailMatch y.2.2 = true)) →
      ((¬ x.2.1 ∈ supported →
          validateTargetConfig supported cnf =
            some ⟨.unsupportedDelivery, fmtTriple x⟩) ∧
        (x.2.1 ∈ supported → x.2.1 = DeliverySMTP → emailMatch x.2.2 = false →
          validateTargetConfig supported cnf = some ⟨.invalidEmail, fmtTriple x⟩))) := by
  refine ⟨?_, ?_, ?_⟩
  · intro h
    simp [validateTargetConfig, h]
  · by_cases h : cnf.targets = []
    · simp [validateTargetConfig, h]
    · rw [validateTargetConfig, if_neg h, findSome?_eq_none_iff]
      constructor
      · intro hall
        exact ⟨h, fun x hx => (validateTriple_eq_none_iff supported x).mp (hall x hx)⟩
      · intro hall
        exact fun x hx => (validateTriple_eq_none_iff supported x).mpr (hall.2 x hx)
  · intro pre x post h htr hpre
    have hprenone : ∀ y ∈ pre, validateTriple supported y = none :=
      fun y hy => (validateTriple_eq_none_iff supported y).mpr (hpre y hy)
    constructor
    · intro hx
      rw [validateTargetConfig, if_neg h, htr]
      refine findSome?_first (validateTriple supported) pre x post _ hprenone ?_
      simp [validateTriple, hx]
    · intro h1 h2 h3
      rw [validateTargetConfig, if_neg h, htr]
      refine findSome?_first (validateTriple supported) pre x post _ hprenone ?_
      rw [validateTriple, if_neg (not_not_intro h1), if_pos ⟨h2, by simp [h3]⟩]

theorem validate_spec_witness :
    validateTargetConfig [DeliverySMTP] ⟨[]⟩ = some ⟨.emptyTargets, []⟩ ∧
    validateTargetConfig [DeliverySMTP]
      ⟨[(str "test", ⟨[⟨str "smtp", [str "a@b.c"]⟩]⟩)]⟩ = none ∧
    validateTargetConfig [DeliverySMTP]
      ⟨[(str "test", ⟨[⟨str "nosmtp", [str "x"]⟩]⟩)]⟩ =
      some ⟨.unsupportedDelivery, str "test:nosmtp:x"⟩ ∧
    validateTargetConfig [DeliverySMTP]
      ⟨[(str "test", ⟨[⟨str "smtp", [str "noemail"]⟩]⟩)]⟩ =
      some ⟨.invalidEmail, str "test:smtp:noemail"⟩ := by
  refine ⟨(validate_spec [DeliverySMTP] ⟨[]⟩).1 rfl, ?_, ?_, ?_⟩
  · refine (validate_spec [DeliverySMTP]
      ⟨[(str "test", ⟨[⟨str "smtp", [str "a@b.c"]⟩]⟩)]⟩).2.1.mpr ⟨by decide, ?_⟩
    intro x hx
    rw [show triples [(str "test", (⟨[⟨str "smtp", [str "a@b.c"]⟩]⟩ : Target))] =
      [(str "test", str "smtp", str "a@b.c")] from by decide] at hx
    rcases List.mem_cons.mp hx with rfl | hx
    · exact ⟨by decide, fun _ => by decide⟩
    · simp at hx
  · have h := ((validate_spec [DeliverySMTP]
      ⟨[(str "test", ⟨[⟨str "nosmtp", [str "x"]⟩]⟩)]⟩).2.2 []
      (str "test", str "nosmtp", str "x") [] (by decide) (by decide)
      (by intro y hy; simp at hy)).1 (by decide)
    rw [h]
    rfl
  · have h := ((validate_spec [DeliverySMTP]
      ⟨[(str "test", ⟨[⟨str "smtp", [str "noemail"]⟩]⟩)]⟩).2.2 []
      (str "test", str "smtp", str "noemail") [] (by decide) (by decide)
      (by intro y hy; simp at hy)).2 (by decide) (by decide) (by decide)
    rw [h]
    rfl

end Notifr
